import Mathlib

/-
  Verification of the chat-tails room core.

  Shallow embedding of the Go sources:
  - the nickname registry `map[string]*Client` is modelled as an association
    list `List (String × Option Nat)`: a key that is present with value
    `none` is a nil reservation, a key present with value `some cid` is an
    occupied entry holding client id `cid` (client ids stand in for the
    `*Client` pointers).  Go map assignment and `delete` are modelled by
    `insertReg` / `eraseReg`; with these operations keys stay unique, and
    `lookupReg` returns the value of the first matching key.
  - `time.Time` / `time.Duration` are modelled as `Int` nanoseconds,
    matching Go's monotonic nanosecond clock.
  - each Go function is translated to a pure Lean function returning the
    new state together with its observable effect.
-/

namespace ChatTails

/-- Message from room.go: sender, content, timestamp and variant flags. -/
structure Message where
  From : String
  Content : String
  Timestamp : Int
  IsSystem : Bool
  IsAction : Bool
deriving DecidableEq, Repr

/-- The nickname registry `r.clients : map[string]*Client`:
`none` is a nil reservation, `some cid` an occupied entry. -/
abbrev Registry := List (String × Option Nat)

/-- Go map read `v, exists := r.clients[n]`: first matching key. -/
def lookupReg : Registry → String → Option (Option Nat)
  | [], _ => none
  | (k, v) :: rest, n => if k = n then some v else lookupReg rest n

/-- Go `delete(r.clients, n)`. -/
def eraseReg : Registry → String → Registry
  | [], _ => []
  | (k, v) :: rest, n => if k = n then eraseReg rest n else (k, v) :: eraseReg rest n

/-- Go map assignment `r.clients[n] = v` (replaces any existing entry). -/
def insertReg (r : Registry) (n : String) (v : Option Nat) : Registry :=
  eraseReg r n ++ [(n, v)]

/-- The `activeClients` count from Room.addClient: the number of non-nil
(occupied) entries; nil reservations are not counted. -/
def activeClients : Registry → Nat
  | [] => 0
  | (_, some _) :: rest => activeClients rest + 1
  | (_, none) :: rest => activeClients rest

/-- Result of Room.addClient: the updated registry together with the
`fullRoomRejection` flag set on the client. -/
structure AddResult where
  registry : Registry
  rejected : Bool
deriving DecidableEq, Repr

/-- Room.addClient: count occupied entries; if the room is full, delete the
caller's reservation and flag the rejection, otherwise replace the nil
reservation with the actual client. -/
def addClient (r : Registry) (maxUsers : Nat) (nick : String) (cid : Nat) : AddResult :=
  if activeClients r ≥ maxUsers then
    { registry := eraseReg r nick, rejected := true }
  else
    { registry := insertReg r nick (some cid), rejected := false }

/-- Room.removeClient: delete the entry if present and, exactly in that
case, broadcast a departure notice (returned as `some msg`). -/
def removeClient (r : Registry) (nick : String) (now : Int) : Registry × Option Message :=
  match lookupReg r nick with
  | some _ =>
      (eraseReg r nick,
        some { From := "System", Content := nick ++ " has left the room",
               Timestamp := now, IsSystem := true, IsAction := false })
  | none => (r, none)

/-- Room.GetUserList: iterates over all map keys, with no nil filter. -/
def GetUserList (r : Registry) : List String := r.map Prod.fst

/-- Room.IsNicknameAvailable: a nickname is available iff it is absent. -/
def IsNicknameAvailable (r : Registry) (n : String) : Bool :=
  (lookupReg r n).isNone

/-- Room.ReserveNickname: fails if the key exists (reserved or occupied);
otherwise stores a nil reservation and succeeds. -/
def ReserveNickname (r : Registry) (n : String) : Registry × Bool :=
  match lookupReg r n with
  | some _ => (r, false)
  | none => (insertReg r n none, true)

/-- Room.ReleaseNickname: deletes the entry only when it exists and holds a
nil client (a reservation). -/
def ReleaseNickname (r : Registry) (n : String) : Registry :=
  match lookupReg r n with
  | some none => eraseReg r n
  | _ => r

/-- Room.addToHistory: append, then cut from the front when the length
exceeds `historySize` (`r.history = r.history[len-historySize:]`). -/
def addToHistory (historySize : Nat) (h : List Message) (msg : Message) : List Message :=
  if historySize < (h ++ [msg]).length then
    (h ++ [msg]).drop ((h ++ [msg]).length - historySize)
  else h ++ [msg]

/-- Room.GetHistory returns a defensive copy of the buffer. -/
def GetHistory (h : List Message) : List Message := h

/-- The history effect of Room.broadcastMessage: record the message only
when history is enabled. -/
def broadcastHistory (enableHistory : Bool) (historySize : Nat)
    (h : List Message) (msg : Message) : List Message :=
  if enableHistory then addToHistory historySize h msg else h

/-- MaxMessageLength from client.go. -/
def MaxMessageLength : Nat := 1000

/-- MessageRateLimit from client.go. -/
def MessageRateLimit : Nat := 5

/-- RateLimitWindow from client.go: 5 * time.Second, in nanoseconds. -/
def RateLimitWindow : Int := 5000000000

/-- Result of Client.checkRateLimit: the pruned timestamp list written back
to `c.messageTimestamps`, and `some wait` when the call returns the
rate-limit error. -/
structure RateLimitResult where
  messageTimestamps : List Int
  waitError : Option Int
deriving DecidableEq, Repr

/-- Client.checkRateLimit: append `now`, keep only timestamps strictly
after `now - RateLimitWindow` (Go `ts.After(cutoff)`), store the pruned
list, and error iff more than MessageRateLimit survive, reporting
`newTimestamps[0] + RateLimitWindow - now` as the wait. -/
def checkRateLimit (now : Int) (tss : List Int) : RateLimitResult :=
  let appended := tss ++ [now]
  let cutoff := now - RateLimitWindow
  let newTimestamps := appended.filter (fun ts => decide (cutoff < ts))
  if MessageRateLimit < newTimestamps.length then
    { messageTimestamps := newTimestamps,
      waitError := some (newTimestamps.headD 0 + RateLimitWindow - now) }
  else
    { messageTimestamps := newTimestamps, waitError := none }

/-- A session's successive submissions: thread the timestamp list through
`checkRateLimit` at each event time, recording acceptance per event. -/
def runRateLimit : List Int → List Int → List Int × List Bool
  | tss, [] => (tss, [])
  | tss, now :: rest =>
    let res := checkRateLimit now tss
    let next := runRateLimit res.messageTimestamps rest
    (next.1, res.waitError.isNone :: next.2)

/-- Observable outcome of one iteration of the Client.Handle input loop. -/
inductive LineOutcome where
  | emptyLine
  | tooLong
  | rateLimited (wait : Int)
  | command
  | chatBroadcast
deriving DecidableEq, Repr

/-- The body of the Client.Handle input loop after `strings.TrimSpace`:
skip empty lines, validate the length (validateMessageLength), then, except
for `/quit`, consume the rate limiter; finally dispatch command vs
broadcast.  Returns the outcome and the session's new timestamp list. -/
def processMessage (now : Int) (tss : List Int) (message : String) :
    LineOutcome × List Int :=
  if message = "" then (LineOutcome.emptyLine, tss)
  else if MaxMessageLength < message.length then (LineOutcome.tooLong, tss)
  else if message.startsWith "/quit" then (LineOutcome.command, tss)
  else
    let res := checkRateLimit now tss
    match res.waitError with
    | some w => (LineOutcome.rateLimited w, res.messageTimestamps)
    | none =>
      if message.startsWith "/" then (LineOutcome.command, res.messageTimestamps)
      else (LineOutcome.chatBroadcast, res.messageTimestamps)

/-- One full loop iteration on a raw input line: Go first runs
`strings.TrimSpace` on the line. -/
def processLine (now : Int) (tss : List Int) (line : String) :
    LineOutcome × List Int :=
  processMessage now tss line.trim

/-- Channel-level state of a Room relevant to shutdown: whether the
context has been cancelled, whether broadcast/join/leave have been closed,
and whether the run loop is still receiving on them. -/
structure RoomChannels where
  ctxDone : Bool
  chansClosed : Bool
  loopReceiving : Bool
deriving DecidableEq, Repr

/-- Room.Stop: cancel the context, wait for the run loop to exit, then
close the broadcast, join and leave channels. -/
def Stop (_ : RoomChannels) : RoomChannels :=
  { ctxDone := true, chansClosed := true, loopReceiving := false }

/-- Outcome of one call to Room.Broadcast / Join / Leave. -/
inductive SelectOutcome where
  | delivered
  | noop
  | panicked
deriving DecidableEq, Repr

/-- Go semantics of `select { case ch <- v: case <-ctx.Done(): }`, the body
of Room.Broadcast, Join and Leave: the select chooses pseudo-randomly among
the ready cases; the Done case is ready once the context is cancelled; the
send case is ready when the run loop is receiving, and also when `ch` is
closed — in which case executing it panics ("send on closed channel"). -/
inductive selectSendOrDone (r : RoomChannels) : SelectOutcome → Prop
  | doneReady : r.ctxDone = true → selectSendOrDone r SelectOutcome.noop
  | sendClosed : r.chansClosed = true → selectSendOrDone r SelectOutcome.panicked
  | sendOpen : r.chansClosed = false → r.loopReceiving = true →
      selectSendOrDone r SelectOutcome.delivered

theorem lookupReg_eraseReg_self (r : Registry) (n : String) :
    lookupReg (eraseReg r n) n = none := by
  induction r with
  | nil => rfl
  | cons p rest ih =>
    obtain ⟨k, v⟩ := p
    by_cases h : k = n
    · simp [eraseReg, h, ih]
    · simp [eraseReg, lookupReg, h, ih]

theorem lookupReg_eraseReg_ne (r : Registry) {n k : String} (h : k ≠ n) :
    lookupReg (eraseReg r n) k = lookupReg r k := by
  induction r with
  | nil => rfl
  | cons p rest ih =>
    obtain ⟨k', v⟩ := p
    by_cases hk : k' = n
    · subst hk
      have : ¬ k' = k := fun he => h (he ▸ rfl)
      simp [eraseReg, lookupReg, this, ih]
    · simp [eraseReg, lookupReg, hk, ih]

theorem lookupReg_append_of_none {r1 : Registry} (r2 : Registry) {n : String}
    (h : lookupReg r1 n = none) : lookupReg (r1 ++ r2) n = lookupReg r2 n := by
  induction r1 with
  | nil => rfl
  | cons p rest ih =>
    obtain ⟨k, v⟩ := p
    by_cases hk : k = n
    · simp [lookupReg, hk] at h
    · simp [lookupReg, hk] at h ⊢
      exact ih h

theorem lookupReg_append_of_some {r1 : Registry} (r2 : Registry) {n : String}
    {v : Option Nat} (h : lookupReg r1 n = some v) :
    lookupReg (r1 ++ r2) n = some v := by
  induction r1 with
  | nil => simp [lookupReg] at h
  | cons p rest ih =>
    obtain ⟨k, w⟩ := p
    by_cases hk : k = n
    · simp [lookupReg, hk] at h ⊢
      exact h
    · simp [lookupReg, hk] at h ⊢
      exact ih h

theorem lookupReg_insertReg_self (r : Registry) (n : String) (v : Option Nat) :
    lookupReg (insertReg r n v) n = some v := by
  unfold insertReg
  rw [lookupReg_append_of_none _ (lookupReg_eraseReg_self r n)]
  simp [lookupReg]

theorem lookupReg_insertReg_ne (r : Registry) {n k : String} (v : Option Nat)
    (h : k ≠ n) : lookupReg (insertReg r n v) k = lookupReg r k := by
  unfold insertReg
  cases hl : lookupReg (eraseReg r n) k with
  | none =>
      rw [lookupReg_append_of_none _ hl]
      rw [lookupReg_eraseReg_ne r h] at hl
      have hnk : ¬ n = k := fun he => h (he ▸ rfl)
      simp [lookupReg, hnk, hl]
  | some w =>
      rw [lookupReg_append_of_some _ hl]
      rw [lookupReg_eraseReg_ne r h] at hl
      exact hl.symm

theorem activeClients_append (r1 r2 : Registry) :
    activeClients (r1 ++ r2) = activeClients r1 + activeClients r2 := by
  induction r1 with
  | nil => simp [activeClients]
  | cons p rest ih =>
    obtain ⟨k, v⟩ := p
    cases v with
    | none => simp [activeClients, ih]
    | some c =>
        simp [activeClients, ih]
        omega

/-- C1: the claim says every Join/Leave/Broadcast after Stop() is a
non-blocking, non-panicking no-op.  In the code, Stop() closes the
broadcast/join/leave channels after the run loop has exited, so a later
call's `select` has its send case ready on a closed channel; Go may choose
that case, and executing a send on a closed channel panics.  This theorem
exhibits the panicking execution admitted by the select semantics for every
call made after Stop() has returned. -/
theorem broadcast_after_stop_can_panic (r : RoomChannels) :
    selectSendOrDone (Stop r) SelectOutcome.panicked :=
  selectSendOrDone.sendClosed rfl

/-- C2 counterexample: after reserving "alice" in an empty room the
registry holds a single nil reservation and no occupied entry, yet
GetUserList returns ["alice"] — a nickname that is only in the reserved
state is included, contradicting the claim that only occupied nicknames
are returned. -/
theorem getUserList_includes_reserved_cex :
    activeClients (ReserveNickname [] "alice").1 = 0
    ∧ lookupReg (ReserveNickname [] "alice").1 "alice" = some none
    ∧ GetUserList (ReserveNickname [] "alice").1 = ["alice"] := by decide

/-- C2 (amended): GetUserList returns exactly the nicknames present in the
registry, occupied and reserved alike — a nickname is listed iff its key
exists in the registry, regardless of whether the entry holds a live
client or a nil reservation. -/
theorem getUserList_registry_keys (r : Registry) (n : String) :
    n ∈ GetUserList r ↔ lookupReg r n ≠ none := by
  induction r with
  | nil => simp [GetUserList, lookupReg]
  | cons p rest ih =>
    obtain ⟨k, v⟩ := p
    by_cases h : k = n
    · subst h
      simp [GetUserList, lookupReg]
    · have h' : ¬ n = k := fun he => h (he ▸ rfl)
      simp [GetUserList, lookupReg, h, h'] at ih ⊢
      exact ih

/-- C2 (amended) witness at a concrete registry: "bob" is occupied and
listed, "carol" is absent and not listed. -/
theorem getUserList_registry_keys_witness :
    ("bob" ∈ GetUserList [("bob", some 3)] ↔
      lookupReg [("bob", some 3)] "bob" ≠ none)
    ∧ ("carol" ∈ GetUserList [("bob", some 3)] ↔
      lookupReg [("bob", some 3)] "carol" ≠ none) :=
  ⟨getUserList_registry_keys [("bob", some 3)] "bob",
   getUserList_registry_keys [("bob", some 3)] "carol"⟩

/-- C4: admission counts only occupied entries against capacity — storing
a nil reservation for a nickname leaves the count exactly where deleting
that nickname would put it — and once the occupied count has reached
maxUsers the client is rejected, its nickname entry is deleted so the
nickname is available again, and no membership entry remains; below
capacity the client is admitted and occupies its nickname. -/
theorem addClient_capacity_spec (r : Registry) (m : Nat) (nick : String)
    (cid : Nat) :
    activeClients (insertReg r nick none) = activeClients (eraseReg r nick)
    ∧ (activeClients r ≥ m →
        (addClient r m nick cid).rejected = true
        ∧ lookupReg (addClient r m nick cid).registry nick = none
        ∧ IsNicknameAvailable (addClient r m nick cid).registry nick = true)
    ∧ (activeClients r < m →
        (addClient r m nick cid).rejected = false
        ∧ lookupReg (addClient r m nick cid).registry nick = some (some cid)) := by
  refine ⟨?_, fun hge => ?_, fun hlt => ?_⟩
  · unfold insertReg
    rw [activeClients_append]
    simp [activeClients]
  · have hif : addClient r m nick cid
        = { registry := eraseReg r nick, rejected := true } := by
      simp [addClient, hge]
    refine ⟨by simp [hif], by simp [hif, lookupReg_eraseReg_self], ?_⟩
    simp [IsNicknameAvailable, hif, lookupReg_eraseReg_self]
  · have hn : ¬ activeClients r ≥ m := by omega
    have hif : addClient r m nick cid
        = { registry := insertReg r nick (some cid), rejected := false } := by
      simp [addClient, hn]
    simp [hif, lookupReg_insertReg_self]

/-- C4 witness: one occupied member "bob", capacity 1, and a reservation
for "alice": admitting "alice" is rejected, her reservation is deleted and
the nickname becomes available again. -/
theorem addClient_capacity_spec_witness :
    (addClient [("alice", none), ("bob", some 0)] 1 "alice" 1).rejected = true
    ∧ lookupReg (addClient [("alice", none), ("bob", some 0)] 1 "alice" 1).registry
        "alice" = none
    ∧ IsNicknameAvailable
        (addClient [("alice", none), ("bob", some 0)] 1 "alice" 1).registry
        "alice" = true :=
  (addClient_capacity_spec [("alice", none), ("bob", some 0)] 1 "alice" 1).2.1
    (by decide)

theorem addToHistory_eq_drop (cap : Nat) (h : List Message) (msg : Message) :
    addToHistory cap h msg = (h ++ [msg]).drop ((h ++ [msg]).length - cap) := by
  by_cases hc : cap < (h ++ [msg]).length
  · rw [addToHistory, if_pos hc]
  · have h0 : (h ++ [msg]).length - cap = 0 := by omega
    rw [addToHistory, if_neg hc, h0, List.drop_zero]

theorem foldl_addToHistory (cap : Nat) (msgs : List Message) :
    ∀ h : List Message, h.length ≤ cap →
      List.foldl (addToHistory cap) h msgs
        = (h ++ msgs).drop ((h ++ msgs).length - cap) := by
  induction msgs with
  | nil =>
      intro h hb
      have h0 : h.length - cap = 0 := by omega
      simp [h0]
  | cons m ms ih =>
      intro h hb
      rw [List.foldl_cons, addToHistory_eq_drop]
      have hlen : ((h ++ [m]).drop ((h ++ [m]).length - cap)).length ≤ cap := by
        simp [List.length_drop]
        omega
      rw [ih _ hlen]
      have hrw : h ++ m :: ms = (h ++ [m]) ++ ms := by simp
      rw [hrw]
      have hk : (h ++ [m]).length - cap ≤ (h ++ [m]).length := by omega
      rw [← List.drop_append_of_le_length hk, List.drop_drop]
      congr 1
      simp [List.length_drop, List.length_append]
      omega

/-- C5: with history enabled, broadcasting a sequence of messages into an
empty history leaves exactly the last `cap` of them, in broadcast order
(`drop (M - cap)` keeps all M messages when M ≤ cap), and the buffer's
length is always `min M cap`, so it never exceeds the capacity. -/
theorem history_bound_spec (cap : Nat) (msgs : List Message) :
    GetHistory (List.foldl (broadcastHistory true cap) [] msgs)
      = msgs.drop (msgs.length - cap)
    ∧ (List.foldl (broadcastHistory true cap) [] msgs).length
      = min msgs.length cap := by
  have hbh : broadcastHistory true cap = addToHistory cap := by
    funext h m
    simp [broadcastHistory]
  have h0 : ([] : List Message).length ≤ cap := by simp
  have hfold := foldl_addToHistory cap msgs [] h0
  simp only [List.nil_append] at hfold
  rw [hbh]
  refine ⟨hfold, ?_⟩
  rw [hfold]
  simp [List.length_drop]
  omega

/-- C6: ReserveNickname succeeds iff the nickname is wholly absent from
the registry; on success the entry is the nil reservation, and any second
reservation attempt for the same nickname fails. -/
theorem reserveNickname_spec (r : Registry) (n : String) :
    ((ReserveNickname r n).2 = true ↔ lookupReg r n = none)
    ∧ ((ReserveNickname r n).2 = true →
        lookupReg (ReserveNickname r n).1 n = some none)
    ∧ (ReserveNickname (ReserveNickname r n).1 n).2 = false := by
  cases h : lookupReg r n with
  | none =>
      have h1 : ReserveNickname r n = (insertReg r n none, true) := by
        simp [ReserveNickname, h]
      refine ⟨by simp [h1], fun _ => ?_, ?_⟩
      · simp [h1, lookupReg_insertReg_self]
      · rw [h1]
        simp [ReserveNickname, lookupReg_insertReg_self]
  | some v =>
      have h1 : ReserveNickname r n = (r, false) := by
        simp [ReserveNickname, h]
      refine ⟨by simp [h1, h], fun hc => by simp [h1] at hc, ?_⟩
      rw [h1]
      simp [ReserveNickname, h]

/-- C6 witness: in the empty registry, reserving "alice" succeeds and a
second attempt fails. -/
theorem reserveNickname_spec_witness :
    (ReserveNickname [] "alice").2 = true
    ∧ (ReserveNickname (ReserveNickname [] "alice").1 "alice").2 = false :=
  ⟨(reserveNickname_spec [] "alice").1.mpr rfl,
   (reserveNickname_spec [] "alice").2.2⟩

/-- C7: removal is idempotent — after a removeClient call for a nickname,
a further removeClient for the same nickname leaves the registry unchanged
and broadcasts no departure notice (and, being total, never errors). -/
theorem removeClient_idempotent (r : Registry) (nick : String) (t1 t2 : Int) :
    removeClient (removeClient r nick t1).1 nick t2
      = ((removeClient r nick t1).1, none) := by
  cases h : lookupReg r nick with
  | none => simp [removeClient, h]
  | some v => simp [removeClient, h, lookupReg_eraseReg_self]

/-- C8: ReleaseNickname deletes the entry only when it is a nil
reservation; on an occupied or absent nickname the registry is returned
unchanged, and every occupied entry of the registry survives a release of
any nickname. -/
theorem releaseNickname_spec (r : Registry) (n : String) :
    (lookupReg r n = some none →
        ReleaseNickname r n = eraseReg r n
        ∧ lookupReg (ReleaseNickname r n) n = none)
    ∧ (∀ cid, lookupReg r n = some (some cid) → ReleaseNickname r n = r)
    ∧ (lookupReg r n = none → ReleaseNickname r n = r)
    ∧ (∀ k cid, lookupReg r k = some (some cid) →
        lookupReg (ReleaseNickname r n) k = some (some cid)) := by
  refine ⟨fun h => ?_, fun cid h => ?_, fun h => ?_, fun k cid h => ?_⟩
  · constructor
    · simp [ReleaseNickname, h]
    · simp [ReleaseNickname, h, lookupReg_eraseReg_self]
  · simp [ReleaseNickname, h]
  · simp [ReleaseNickname, h]
  · cases hn : lookupReg r n with
    | none => simp [ReleaseNickname, hn, h]
    | some v =>
        cases v with
        | none =>
            have hk : k ≠ n := by
              intro he
              rw [he, hn] at h
              simp at h
            simp [ReleaseNickname, hn, lookupReg_eraseReg_ne r hk, h]
        | some c => simp [ReleaseNickname, hn, h]

/-- C8 witness: releasing the reserved "alice" removes exactly her entry;
the occupied "bob" entry survives. -/
theorem releaseNickname_spec_witness :
    (ReleaseNickname [("alice", none), ("bob", some 7)] "alice"
        = eraseReg [("alice", none), ("bob", some 7)] "alice"
      ∧ lookupReg (ReleaseNickname [("alice", none), ("bob", some 7)] "alice")
          "alice" = none)
    ∧ lookupReg (ReleaseNickname [("alice", none), ("bob", some 7)] "alice")
        "bob" = some (some 7) :=
  ⟨(releaseNickname_spec [("alice", none), ("bob", some 7)] "alice").1 (by decide),
   (releaseNickname_spec [("alice", none), ("bob", some 7)] "alice").2.2.2
     "bob" 7 (by decide)⟩

theorem checkRateLimit_timestamps (now : Int) (T : List Int) :
    (checkRateLimit now T).messageTimestamps
      = (T ++ [now]).filter (fun ts => decide (now - RateLimitWindow < ts)) := by
  unfold checkRateLimit
  dsimp only
  split <;> rfl

theorem checkRateLimit_reject (now : Int) (T : List Int)
    (h : MessageRateLimit <
      ((T ++ [now]).filter (fun ts => decide (now - RateLimitWindow < ts))).length) :
    (checkRateLimit now T).waitError
      = some (((T ++ [now]).filter
          (fun ts => decide (now - RateLimitWindow < ts))).headD 0
        + RateLimitWindow - now) := by
  unfold checkRateLimit
  dsimp only
  rw [if_pos h]

theorem checkRateLimit_accept (now : Int) (T : List Int)
    (h : ¬ MessageRateLimit <
      ((T ++ [now]).filter (fun ts => decide (now - RateLimitWindow < ts))).length) :
    (checkRateLimit now T).waitError = none := by
  unfold checkRateLimit
  dsimp only
  rw [if_neg h]

theorem RateLimitWindow_pos : (0 : Int) < RateLimitWindow := by
  norm_num [RateLimitWindow]

/-- C3: checkRateLimit appends `now` to the list, drops every entry older
than `now` minus the 5-second window, accepts iff at most 5 entries
survive, and on rejection reports a wait equal to (oldest surviving
timestamp + window) − now, which is positive and at most the window; in
the concrete scenario, 6 submissions inside one window accept the first 5
and reject the 6th, and a submission after the window has fully elapsed is
accepted. -/
theorem checkRateLimit_spec (now : Int) (T : List Int)
    (hle : ∀ ts ∈ T, ts ≤ now) (hsort : List.Pairwise (· ≤ ·) T) :
    (checkRateLimit now T).messageTimestamps
        = (T ++ [now]).filter (fun ts => decide (now - RateLimitWindow < ts))
    ∧ now ∈ (checkRateLimit now T).messageTimestamps
    ∧ (∀ ts ∈ T, ts < now - RateLimitWindow →
        ts ∉ (checkRateLimit now T).messageTimestamps)
    ∧ ((checkRateLimit now T).waitError = none
        ↔ (checkRateLimit now T).messageTimestamps.length ≤ MessageRateLimit)
    ∧ (∀ w, (checkRateLimit now T).waitError = some w →
        w = (checkRateLimit now T).messageTimestamps.headD 0
              + RateLimitWindow - now
        ∧ (∀ ts ∈ (checkRateLimit now T).messageTimestamps,
            (checkRateLimit now T).messageTimestamps.headD 0 ≤ ts)
        ∧ 0 < w ∧ w ≤ RateLimitWindow)
    ∧ (runRateLimit [] [0, 1, 2, 3, 4, 5]).2
        = [true, true, true, true, true, false]
    ∧ (checkRateLimit 5000000006 (runRateLimit [] [0, 1, 2, 3, 4, 5]).1).waitError
        = none := by
  have hW := RateLimitWindow_pos
  have hts := checkRateLimit_timestamps now T
  have hmem_now : now ∈ (checkRateLimit now T).messageTimestamps := by
    rw [hts]
    apply List.mem_filter.mpr
    refine ⟨by simp, ?_⟩
    simp only [decide_eq_true_eq]
    omega
  have hsortL : List.Pairwise (· ≤ ·)
      (checkRateLimit now T).messageTimestamps := by
    rw [hts]
    apply List.Pairwise.filter
    apply List.pairwise_append.mpr
    refine ⟨hsort, List.pairwise_singleton _ _, ?_⟩
    intro a ha b hb
    simp only [List.mem_singleton] at hb
    subst hb
    exact hle a ha
  have hmemL : ∀ ts ∈ (checkRateLimit now T).messageTimestamps,
      ts ∈ T ++ [now] ∧ now - RateLimitWindow < ts := by
    intro ts hmem
    rw [hts] at hmem
    have := List.mem_filter.mp hmem
    simpa using this
  refine ⟨hts, hmem_now, ?_, ?_, ?_, by decide, by decide⟩
  · intro ts _ hold hmem
    have := (hmemL ts hmem).2
    omega
  · by_cases h5 : MessageRateLimit <
        ((T ++ [now]).filter (fun ts => decide (now - RateLimitWindow < ts))).length
    · rw [checkRateLimit_reject now T h5, hts]
      simp only [Option.some_ne_none, false_iff]
      omega
    · rw [checkRateLimit_accept now T h5, hts]
      simp only [true_iff]
      omega
  · intro w hw
    by_cases h5 : MessageRateLimit <
        ((T ++ [now]).filter (fun ts => decide (now - RateLimitWindow < ts))).length
    · rw [checkRateLimit_reject now T h5] at hw
      have hwval := Option.some.inj hw
      have hne : (checkRateLimit now T).messageTimestamps ≠ [] := by
        rw [hts]
        intro hnil
        rw [hnil] at h5
        simp [MessageRateLimit] at h5
      have hhead : ∀ ts ∈ (checkRateLimit now T).messageTimestamps,
          (checkRateLimit now T).messageTimestamps.headD 0 ≤ ts := by
        cases hL : (checkRateLimit now T).messageTimestamps with
        | nil => exact absurd hL hne
        | cons x xs =>
            intro ts hmem
            rw [hL] at hsortL
            simp only [List.headD_cons]
            rcases List.mem_cons.mp hmem with h | h
            · exact le_of_eq h.symm
            · exact List.rel_of_pairwise_cons hsortL h
      have hheadmem : (checkRateLimit now T).messageTimestamps.headD 0
          ∈ (checkRateLimit now T).messageTimestamps := by
        cases hL : (checkRateLimit now T).messageTimestamps with
        | nil => exact absurd hL hne
        | cons x xs => simp
      have hhw : (checkRateLimit now T).messageTimestamps.headD 0
          = ((T ++ [now]).filter
              (fun ts => decide (now - RateLimitWindow < ts))).headD 0 := by
        rw [hts]
      refine ⟨by rw [hhw]; exact hwval.symm, hhead, ?_, ?_⟩
      · have hin := (hmemL _ hheadmem).2
        rw [hhw] at hin
        omega
      · have hmem2 := hmemL _ hheadmem
        have hub : (checkRateLimit now T).messageTimestamps.headD 0 ≤ now := by
          rcases List.mem_append.mp hmem2.1 with h | h
          · exact hle _ h
          · simp only [List.mem_singleton] at h
            omega
        rw [hhw] at hub
        omega
    · rw [checkRateLimit_accept now T h5] at hw
      exact absurd hw (by simp)

/-- C3 witness: a single first submission at time 0 is recorded. -/
theorem checkRateLimit_spec_witness :
    (0 : Int) ∈ (checkRateLimit 0 []).messageTimestamps :=
  (checkRateLimit_spec 0 [] (by simp) List.Pairwise.nil).2.1

/-- C9: in the Client.Handle input loop the length validation runs before
the rate-limit check, so a message longer than MaxMessageLength is
rejected with the length error and the session's rate-limit timestamp
list is left unchanged — an oversized message consumes no rate-limit
slot. -/
theorem oversize_skips_rate_limit (now : Int) (tss : List Int)
    (message : String) (h : MaxMessageLength < message.length) :
    processMessage now tss message = (LineOutcome.tooLong, tss) := by
  have hne : ¬ message = "" := fun he => absurd (he ▸ h) (by decide)
  rw [processMessage, if_neg hne, if_pos h]

set_option maxRecDepth 8192 in
/-- C9 witness: a 1001-character message is rejected as too long with the
timestamp list untouched. -/
theorem oversize_skips_rate_limit_witness :
    MaxMessageLength < (String.mk (List.replicate 1001 'a')).length
    ∧ processMessage 0 [] (String.mk (List.replicate 1001 'a'))
        = (LineOutcome.tooLong, []) :=
  ⟨by decide, oversize_skips_rate_limit 0 [] _ (by decide)⟩

/-- C10: a rejected attempt still consumes budget — the rejecting call
writes back a timestamp list that contains the rejected attempt's
timestamp — so after 5 accepted and 1 rejected submission, a further
attempt inside the same window sees 7 in-window timestamps and is
rejected. -/
theorem rate_limit_rejection_consumes_budget :
    (∀ (now : Int) (T : List Int),
        (checkRateLimit now T).waitError.isSome = true →
        now ∈ (checkRateLimit now T).messageTimestamps)
    ∧ (runRateLimit [] [0, 1, 2, 3, 4, 5]).2
        = [true, true, true, true, true, false]
    ∧ (checkRateLimit 6 (runRateLimit [] [0, 1, 2, 3, 4, 5]).1).messageTimestamps.length
        = 7
    ∧ (checkRateLimit 6 (runRateLimit [] [0, 1, 2, 3, 4, 5]).1).waitError.isSome
        = true := by
  refine ⟨fun now T _ => ?_, by decide, by decide, by decide⟩
  rw [checkRateLimit_timestamps]
  apply List.mem_filter.mpr
  refine ⟨by simp, ?_⟩
  have hW := RateLimitWindow_pos
  simp only [decide_eq_true_eq]
  omega

/-- C10 witness: the 6th submission at time 5 inside the window is
rejected, yet its timestamp 5 is recorded in the written-back list. -/
theorem rate_limit_rejection_consumes_budget_witness :
    (checkRateLimit 5 [0, 1, 2, 3, 4]).waitError.isSome = true
    ∧ (5 : Int) ∈ (checkRateLimit 5 [0, 1, 2, 3, 4]).messageTimestamps :=
  ⟨by decide,
   rate_limit_rejection_consumes_budget.1 5 [0, 1, 2, 3, 4] (by decide)⟩

end ChatTails
